import Mathlib

/-!
Shallow embedding of `qiskit_ibm/managed/managedresults.py` (class `ManagedResults`).

Python objects that matter to the verified properties are modelled explicitly:

* An experiment result entry (`qiskit.result.models.ExperimentResult`) is a mutable
  Python object; we model object identity with a heap (`Heap`) of entry cells addressed
  by natural numbers.  A `Result` payload holds the ordered list of *addresses* of its
  entries, so aliasing between two payloads is visible as shared addresses.
* `copy.deepcopy` of a payload allocates fresh cells holding equal values
  (`copyEntries` / `deepcopyResult`), while `list.extend` appends the *addresses*
  of the other payload's entries (aliasing), exactly as in CPython.
* A raised exception is an `Except.error` value.  `IBMQManagedResultDataNotAvailable`
  carries its message and its `from err` cause; an uncaught `JobError` propagating out
  of `job.result()` and Python's `IndexError` from `jobs[0]` on an empty list are the
  other two outcomes.
* `combine_results` additionally returns the possibly updated view state, the possibly
  grown heap, and the number of `job.result()` calls it performed, so that the caching
  claims (no recomputation, no re-fetch) are statable.
-/

/-- The mutable content of one experiment result entry (opaque payload data). -/
structure ExpEntry where
  val : Nat
deriving DecidableEq, Repr

/-- Address of an entry object in the heap. -/
abbrev Addr := Nat

/-- Heap of experiment-result entry objects; addresses are indices into `cells`. -/
structure Heap where
  cells : List ExpEntry
deriving DecidableEq, Repr

/-- Read the entry object stored at address `a` (default entry if dangling). -/
def Heap.get (h : Heap) (a : Addr) : ExpEntry := h.cells.getD a ⟨0⟩

/-- Allocate a fresh entry object; returns its (fresh) address and the grown heap. -/
def Heap.alloc (h : Heap) (e : ExpEntry) : Addr × Heap :=
  (h.cells.length, ⟨h.cells ++ [e]⟩)

/-- Mutate the entry object stored at address `a` in place. -/
def Heap.set (h : Heap) (a : Addr) (e : ExpEntry) : Heap := ⟨h.cells.set a e⟩

/-- `qiskit.result.Result`: an ordered sequence of experiment result entries,
held by reference (its `results` list stores entry-object addresses). -/
structure Result where
  results : List Addr
deriving DecidableEq, Repr

/-- The sequence of entry *values* of a payload, read through the heap. -/
def entryVals (h : Heap) (r : Result) : List ExpEntry := r.results.map h.get

/-- `qiskit_ibm.job.exceptions.JobError`: the job-layer error kind. -/
structure JobError where
  msg : String
deriving DecidableEq, Repr

instance {ε α : Type} [DecidableEq ε] [DecidableEq α] : DecidableEq (Except ε α) :=
  fun x y =>
    match x, y with
    | .ok a, .ok b => decidable_of_iff (a = b) (by simp)
    | .ok _, .error _ => isFalse (by simp)
    | .error _, .ok _ => isFalse (by simp)
    | .error e, .error f => decidable_of_iff (e = f) (by simp)

/-- A job handle.  `fetched` is the outcome of asking the job for its result. -/
structure Job where
  fetched : Except JobError Result
deriving DecidableEq, Repr

/-- Modelled from the spec: `fetch_result() -> JobResultPayload, fails with a
job-layer error kind on remote failure` (`IBMQJob.result`, not among the provided
sources).  The spec assumes `the job client itself caches the completed result`,
so every call returns the job's stored payload (same entry objects each time). -/
def Job.result (j : Job) : Except JobError Result := j.fetched

/-- A caller-supplied experiment identifier (name of circuit/schedule, or position). -/
inductive ExperimentRef where
  | byName (s : String)
  | byIndex (n : Nat)
deriving DecidableEq, Repr

/-- Rendering of the identifier used by `'{}'.format(experiment)` in error messages. -/
def ExperimentRef.fmt : ExperimentRef → String
  | .byName s => s
  | .byIndex n => toString n

/-- Modelled from the spec: the Job Set Index collaborator (`managedjobset.py` is not
among the provided sources).  It exposes `lookup(experiment_ref) ->
(job_handle_or_none, intra_job_offset)` and `all_jobs_in_submission_order()`. -/
structure ManagedJobSet where
  jobsList : List Job
  lookup : ExperimentRef → Option Job × Nat

/-- `ManagedJobSet.jobs()`: all jobs, in submission order. -/
def ManagedJobSet.jobs (s : ManagedJobSet) : List Job := s.jobsList

/-- `ManagedJobSet.job(experiment)`: the job that ran the experiment (or `None`)
and the experiment's index within that job. -/
def ManagedJobSet.job (s : ManagedJobSet) (e : ExperimentRef) : Option Job × Nat :=
  s.lookup e

/-- The exceptions that can escape the `ManagedResults` methods. -/
inductive PyErr where
  /-- `IBMQManagedResultDataNotAvailable(msg)`, optionally `raise ... from err`. -/
  | IBMQManagedResultDataNotAvailable (msg : String) (cause : Option JobError)
  /-- An uncaught `JobError` propagating out of `job.result()`. -/
  | JobErrorRaised (e : JobError)
  /-- Python `IndexError` (from `jobs[0]` on an empty list). -/
  | IndexErrorRaised
deriving DecidableEq, Repr

/-- The `from err` cause attached to an exception (`None` when not chained). -/
def PyErr.cause : PyErr → Option JobError
  | .IBMQManagedResultDataNotAvailable _ c => c
  | _ => none

/-- `'Job for experiment {} was not successfully submitted.'.format(experiment)` -/
def submissionNotFoundMsg (e : ExperimentRef) : String :=
  "Job for experiment " ++ e.fmt ++ " was not successfully submitted."

/-- `'Result data for experiment {} is not available.'.format(experiment)` -/
def resultUnavailableMsg (e : ExperimentRef) : String :=
  "Result data for experiment " ++ e.fmt ++ " is not available."

/-- `"Results cannot be combined since some of the jobs failed."` -/
def combineRefusedMsg : String :=
  "Results cannot be combined since some of the jobs failed."

/-- The SubmissionNotFound failure signal raised by `_get_result`. -/
def submissionNotFoundErr (e : ExperimentRef) : PyErr :=
  .IBMQManagedResultDataNotAvailable (submissionNotFoundMsg e) none

/-- The ResultUnavailable failure signal raised by `_get_result`, chained `from err`. -/
def resultUnavailableErr (e : ExperimentRef) (err : JobError) : PyErr :=
  .IBMQManagedResultDataNotAvailable (resultUnavailableMsg e) (some err)

/-- The CombinationRefused failure signal raised by `combine_results`. -/
def combinationRefusedErr : PyErr :=
  .IBMQManagedResultDataNotAvailable combineRefusedMsg none

/-- The state of a `ManagedResults` view: job set reference, backend name,
overall success flag, and the one-shot combined-result cache. -/
structure ManagedResults where
  _job_set : ManagedJobSet
  backend_name : String
  success : Bool
  _combined_results : Option Result

/-- `ManagedResults._get_result(experiment)`: resolve the experiment to the result of
the job that ran it and the experiment's index within that job. -/
def ManagedResults._get_result (mr : ManagedResults) (experiment : ExperimentRef) :
    Except PyErr (Result × Nat) :=
  match mr._job_set.job experiment with
  | (none, _) => Except.error (submissionNotFoundErr experiment)
  | (some job, exp_index) =>
    match job.result with
    | Except.ok result => Except.ok (result, exp_index)
    | Except.error err => Except.error (resultUnavailableErr experiment err)

/-- `ManagedResults.data(experiment)`: resolve, then delegate to `Result.data`.
The payload accessor itself is external `qiskit` code, passed in as `acc`. -/
def ManagedResults.data {α : Type} (mr : ManagedResults) (acc : Result → Nat → α)
    (experiment : ExperimentRef) : Except PyErr α :=
  match mr._get_result experiment with
  | Except.error e => Except.error e
  | Except.ok (result, exp_index) => Except.ok (acc result exp_index)

/-- `ManagedResults.get_memory(experiment)`: resolve, then delegate to
`Result.get_memory`. -/
def ManagedResults.get_memory {α : Type} (mr : ManagedResults) (acc : Result → Nat → α)
    (experiment : ExperimentRef) : Except PyErr α :=
  match mr._get_result experiment with
  | Except.error e => Except.error e
  | Except.ok (result, exp_index) => Except.ok (acc result exp_index)

/-- `ManagedResults.get_counts(experiment)`: resolve, then delegate to
`Result.get_counts`. -/
def ManagedResults.get_counts {α : Type} (mr : ManagedResults) (acc : Result → Nat → α)
    (experiment : ExperimentRef) : Except PyErr α :=
  match mr._get_result experiment with
  | Except.error e => Except.error e
  | Except.ok (result, exp_index) => Except.ok (acc result exp_index)

/-- `ManagedResults.get_statevector(experiment, decimals)`: resolve, then delegate to
`Result.get_statevector(experiment=exp_index, decimals=decimals)`. -/
def ManagedResults.get_statevector {α : Type} (mr : ManagedResults)
    (acc : Result → Nat → Option Int → α) (experiment : ExperimentRef)
    (decimals : Option Int) : Except PyErr α :=
  match mr._get_result experiment with
  | Except.error e => Except.error e
  | Except.ok (result, exp_index) => Except.ok (acc result exp_index decimals)

/-- `ManagedResults.get_unitary(experiment, decimals)`: resolve, then delegate to
`Result.get_unitary(experiment=exp_index, decimals=decimals)`. -/
def ManagedResults.get_unitary {α : Type} (mr : ManagedResults)
    (acc : Result → Nat → Option Int → α) (experiment : ExperimentRef)
    (decimals : Option Int) : Except PyErr α :=
  match mr._get_result experiment with
  | Except.error e => Except.error e
  | Except.ok (result, exp_index) => Except.ok (acc result exp_index decimals)

/-- One fresh cell per source entry, holding an equal value: the entry-copying part of
`copy.deepcopy` on a `Result`.  Returns the fresh addresses and the grown heap. -/
def copyEntries : Heap → List Addr → List Addr × Heap
  | h, [] => ([], h)
  | h, a :: rest =>
    let p := h.alloc (h.get a)
    let q := copyEntries p.2 rest
    (p.1 :: q.1, q.2)

/-- `copy.deepcopy(result)`: a fresh payload whose entries are fresh objects with
equal values (nothing shared with the source payload). -/
def deepcopyResult (h : Heap) (r : Result) : Result × Heap :=
  let p := copyEntries h r.results
  (⟨p.1⟩, p.2)

/-- The loop `for idx in range(1, len(jobs)):
combined_result.results.extend(jobs[idx].result().results)`.
`extend` appends the *addresses* of the other payload's entries (aliasing).
The counter threads the number of `job.result()` calls made so far. -/
def extendLoop : List Job → Result → Nat → Except PyErr Result × Nat
  | [], acc, n => (Except.ok acc, n)
  | j :: rest, acc, n =>
    match j.result with
    | Except.error e => (Except.error (PyErr.JobErrorRaised e), n + 1)
    | Except.ok r => extendLoop rest ⟨acc.results ++ r.results⟩ (n + 1)

/-- `ManagedResults.combine_results()`.  Returns the outcome, the updated view state,
the updated heap, and the number of `job.result()` calls performed.
(A `qiskit` `Result` object is always truthy, so `if self._combined_results:`
is a presence test on the cache.) -/
def ManagedResults.combine_results (mr : ManagedResults) (h : Heap) :
    Except PyErr Result × ManagedResults × Heap × Nat :=
  match mr._combined_results with
  | some cached => (Except.ok cached, mr, h, 0)
  | none =>
    if mr.success = false then
      (Except.error (PyErr.IBMQManagedResultDataNotAvailable combineRefusedMsg none),
       mr, h, 0)
    else
      match mr._job_set.jobs with
      | [] => (Except.error PyErr.IndexErrorRaised, mr, h, 0)
      | j0 :: rest =>
        match j0.result with
        | Except.error e => (Except.error (PyErr.JobErrorRaised e), mr, h, 1)
        | Except.ok r0 =>
          let p := deepcopyResult h r0
          match extendLoop rest p.1 1 with
          | (Except.error e, n) => (Except.error e, mr, p.2, n)
          | (Except.ok combined, n) =>
            (Except.ok combined,
             { mr with _combined_results := some combined }, p.2, n)

/-! ### Helper lemmas about the heap and `copy.deepcopy` -/

lemma copyEntries_extension (as : List Addr) (h : Heap) :
    ∃ ext, (copyEntries h as).2.cells = h.cells ++ ext := by
  induction as generalizing h with
  | nil => exact ⟨[], by simp [copyEntries]⟩
  | cons a rest ih =>
    obtain ⟨ext, hext⟩ := ih (h.alloc (h.get a)).2
    refine ⟨h.get a :: ext, ?_⟩
    simp only [copyEntries]
    rw [hext]
    simp [Heap.alloc]

lemma copyEntries_get_lt (as : List Addr) (h : Heap) (a : Addr)
    (ha : a < h.cells.length) :
    (copyEntries h as).2.get a = h.get a := by
  obtain ⟨ext, hext⟩ := copyEntries_extension as h
  simp [Heap.get, hext, List.getD_eq_getElem?_getD, List.getElem?_append_left ha]

lemma copyEntries_length_fst (as : List Addr) (h : Heap) :
    (copyEntries h as).1.length = as.length := by
  induction as generalizing h with
  | nil => simp [copyEntries]
  | cons a rest ih => simp [copyEntries, ih]

lemma copyEntries_fresh (as : List Addr) (h : Heap) :
    ∀ b ∈ (copyEntries h as).1, h.cells.length ≤ b := by
  induction as generalizing h with
  | nil => simp [copyEntries]
  | cons a rest ih =>
    intro b hb
    simp only [copyEntries, List.mem_cons] at hb
    rcases hb with hb | hb
    · simp [hb, Heap.alloc]
    · have hstep := ih (h.alloc (h.get a)).2 b hb
      have hlen : (h.alloc (h.get a)).2.cells.length = h.cells.length + 1 := by
        simp [Heap.alloc]
      rw [hlen] at hstep
      exact Nat.le_trans (Nat.le_succ _) hstep

lemma copyEntries_vals (as : List Addr) (h : Heap)
    (hvalid : ∀ a ∈ as, a < h.cells.length) :
    (copyEntries h as).1.map (copyEntries h as).2.get = as.map h.get := by
  induction as generalizing h with
  | nil => simp [copyEntries]
  | cons a rest ih =>
    have hlen2 : (h.alloc (h.get a)).2.cells.length = h.cells.length + 1 := by
      simp [Heap.alloc]
    have hvalid2 : ∀ b ∈ rest, b < (h.alloc (h.get a)).2.cells.length := by
      intro b hb
      rw [hlen2]
      exact Nat.lt_succ_of_lt (hvalid b (List.mem_cons_of_mem a hb))
    simp only [copyEntries, List.map_cons]
    congr 1
    · -- value of the freshly allocated copy of the head entry
      have hlt : (h.alloc (h.get a)).1 < (h.alloc (h.get a)).2.cells.length := by
        simp [Heap.alloc]
      rw [copyEntries_get_lt rest (h.alloc (h.get a)).2 (h.alloc (h.get a)).1 hlt]
      simp [Heap.alloc, Heap.get, List.getD_eq_getElem?_getD,
        List.getElem?_concat_length]
    · rw [ih (h.alloc (h.get a)).2 hvalid2]
      apply List.map_congr_left
      intro b hb
      have hblt := hvalid b (List.mem_cons_of_mem a hb)
      simp [Heap.alloc, Heap.get, List.getD_eq_getElem?_getD,
        List.getElem?_append_left hblt]

/-! ### Helper lemmas about the combination loop -/

lemma extendLoop_ok (js : List Job) (rs : List Result) (acc : Result) (n : Nat)
    (hfetch : js.map Job.result = rs.map Except.ok) :
    extendLoop js acc n =
      (Except.ok ⟨acc.results ++ (rs.map Result.results).flatten⟩, n + js.length) := by
  induction js generalizing rs acc n with
  | nil =>
    have hrs : rs = [] := by cases rs <;> simp_all
    subst hrs
    simp [extendLoop]
  | cons j jt ih =>
    cases rs with
    | nil => simp at hfetch
    | cons r rt =>
      simp only [List.map_cons, List.cons.injEq] at hfetch
      obtain ⟨h1, h2⟩ := hfetch
      simp only [extendLoop, h1]
      rw [ih rt _ _ h2]
      refine Prod.ext ?_ ?_
      · simp [List.append_assoc]
      · simp only [List.length_cons]
        omega

lemma extendLoop_all_ok (js : List Job) (acc c : Result) (n m : Nat)
    (hok : extendLoop js acc n = (Except.ok c, m)) :
    ∀ j ∈ js, ∃ r, j.result = Except.ok r := by
  induction js generalizing acc n with
  | nil => simp
  | cons j jt ih =>
    intro j2 hj2
    cases hres : j.result with
    | error e => simp [extendLoop, hres] at hok
    | ok r =>
      simp only [extendLoop, hres] at hok
      rcases List.mem_cons.mp hj2 with hhead | hmem
      · exact ⟨r, hhead ▸ hres⟩
      · exact ih _ _ hok j2 hmem

/-- Full computation of `combine_results` on a successful job set. -/
lemma combine_results_eq_ok (mr : ManagedResults) (h : Heap) (j0 : Job)
    (jrest : List Job) (r0 : Result) (rrest : List Result)
    (hcache : mr._combined_results = none) (hsucc : mr.success = true)
    (hjobs : mr._job_set.jobs = j0 :: jrest)
    (h0 : j0.result = Except.ok r0)
    (hrest : jrest.map Job.result = rrest.map Except.ok) :
    mr.combine_results h =
      (Except.ok
        ⟨(copyEntries h r0.results).1 ++ (rrest.map Result.results).flatten⟩,
       { mr with _combined_results :=
           (some ⟨(copyEntries h r0.results).1 ++ (rrest.map Result.results).flatten⟩) },
       (copyEntries h r0.results).2,
       1 + jrest.length) := by
  unfold ManagedResults.combine_results
  rw [hcache, hjobs]
  simp only [hsucc, deepcopyResult, h0]
  rw [extendLoop_ok jrest rrest ⟨(copyEntries h r0.results).1⟩ 1 hrest]
  simp

/-- Positional reading of a flattened list of lists: the element at global position
`(sum of the lengths of the first i blocks) + k` is block `i`'s element `k`. -/
lemma flatten_getElem? {α : Type} (L : List (List α)) (i k : Nat) (hi : i < L.length)
    (hk : k < L[i].length) :
    L.flatten[((L.take i).map List.length).sum + k]? = L[i][k]? := by
  induction L generalizing i with
  | nil => simp at hi
  | cons l lt ih =>
    cases i with
    | zero =>
      simp only [List.take_zero, List.map_nil, List.sum_nil, Nat.zero_add,
        List.flatten_cons, List.getElem_cons_zero]
      exact List.getElem?_append_left (by simpa using hk)
    | succ i2 =>
      have hi2 : i2 < lt.length := by simpa using hi
      have hk2 : k < lt[i2].length := by simpa using hk
      simp only [List.take_succ_cons, List.map_cons, List.sum_cons, List.flatten_cons,
        List.getElem_cons_succ]
      rw [Nat.add_assoc, List.getElem?_append_right (Nat.le_add_right _ _),
        Nat.add_sub_cancel_left]
      exact ih i2 hi2 hk2

/-- The entry values of the combined payload: job 0's values (through the fresh
copies) followed by the remaining jobs' values (through the aliased addresses). -/
lemma entryVals_combined (h : Heap) (r0 : Result) (rrest : List Result)
    (hvalid : ∀ r ∈ r0 :: rrest, ∀ a ∈ r.results, a < h.cells.length) :
    entryVals (copyEntries h r0.results).2
        ⟨(copyEntries h r0.results).1 ++ (rrest.map Result.results).flatten⟩
      = ((r0 :: rrest).map (entryVals h)).flatten := by
  simp only [entryVals, List.map_cons, List.flatten_cons, List.map_append]
  congr 1
  · exact copyEntries_vals r0.results h (hvalid r0 (List.mem_cons_self r0 rrest))
  · rw [List.map_flatten, List.map_map]
    congr 1
    apply List.map_congr_left
    intro r hr
    simp only [Function.comp, entryVals]
    apply List.map_congr_left
    intro a ha
    exact copyEntries_get_lt r0.results h a (hvalid r (List.mem_cons_of_mem r0 hr) a ha)

/-- The combination contract for a fully successful job set: the combined entry-value
sequence has length `c0 + ... + c(N-1)`, and its entry at global position
`(c0 + ... + c(i-1)) + k` is job `i`'s entry `k`. -/
def CombinedConcat (h : Heap) (rs : List Result)
    (p : Except PyErr Result × ManagedResults × Heap × Nat) : Prop :=
  ∃ combined, p.1 = Except.ok combined ∧
    (entryVals p.2.2.1 combined).length =
      (rs.map fun r => (entryVals h r).length).sum ∧
    ∀ i k, ∀ hi : i < rs.length, k < (entryVals h rs[i]).length →
      (entryVals p.2.2.1 combined)[((rs.take i).map fun r => (entryVals h r).length).sum + k]?
        = (entryVals h rs[i])[k]?

/-- C1: for a fully successful job set of N jobs with per-job experiment entry counts
`[c0, ..., cN-1]`, `combine_results()` returns a result whose entry sequence has length
`sum ci`, and for every valid job index `i` and intra-job index `k`, the entry at
global position `(c0 + ... + c(i-1)) + k` equals job `i`'s entry `k` (jobs taken in
submission order, intra-job order preserved). -/
theorem combine_results_concatenates (mr : ManagedResults) (h : Heap) (j0 : Job)
    (jrest : List Job) (r0 : Result) (rrest : List Result)
    (hcache : mr._combined_results = none) (hsucc : mr.success = true)
    (hjobs : mr._job_set.jobs = j0 :: jrest)
    (h0 : j0.result = Except.ok r0)
    (hrest : jrest.map Job.result = rrest.map Except.ok)
    (hvalid : ∀ r ∈ r0 :: rrest, ∀ a ∈ r.results, a < h.cells.length) :
    CombinedConcat h (r0 :: rrest) (mr.combine_results h) := by
  rw [combine_results_eq_ok mr h j0 jrest r0 rrest hcache hsucc hjobs h0 hrest]
  have hev := entryVals_combined h r0 rrest hvalid
  unfold CombinedConcat
  dsimp only
  refine ⟨_, rfl, ?_, ?_⟩
  · rw [hev, List.length_flatten]
    simp [List.map_map, Function.comp_def]
  · intro i k hi hk
    have hiL : i < ((r0 :: rrest).map (entryVals h)).length := by
      simpa using hi
    have hkL : k < (((r0 :: rrest).map (entryVals h))[i]).length := by
      rw [List.getElem_map]
      exact hk
    have hB : List.map List.length (List.take i (List.map (entryVals h) (r0 :: rrest)))
        = List.map (fun r => (entryVals h r).length) (List.take i (r0 :: rrest)) := by
      rw [← List.map_take, List.map_map]
      rfl
    rw [hev, ← hB, flatten_getElem? ((r0 :: rrest).map (entryVals h)) i k hiL hkL,
      List.getElem_map]

/-- C2: on a view whose success flag is false and whose combined-result cache is not
set, `combine_results()` raises `IBMQManagedResultDataNotAvailable` (the
CombinationRefused signal), produces and caches nothing, performs no result fetch,
and leaves the view state (and heap) unchanged. -/
theorem combine_results_refused_on_failure (mr : ManagedResults) (h : Heap)
    (hsucc : mr.success = false) (hcache : mr._combined_results = none) :
    mr.combine_results h = (Except.error combinationRefusedErr, mr, h, 0) ∧
    ((mr.combine_results h).2.1)._combined_results = none := by
  unfold ManagedResults.combine_results
  simp [hcache, hsucc, combinationRefusedErr]

/-- C3: when a combined result is already cached, `combine_results()` returns exactly
the cached object, with the view state and the heap unchanged (no recomputation, no
allocation) and zero `job.result()` calls (no re-fetch). -/
theorem combine_results_cached (mr : ManagedResults) (h : Heap) (r : Result)
    (hcache : mr._combined_results = some r) :
    mr.combine_results h = (Except.ok r, mr, h, 0) := by
  unfold ManagedResults.combine_results
  rw [hcache]

/-- C10: on a view over an empty job set with the success flag true and no cached
combination, `combine_results()` fails with Python's out-of-range `IndexError` from
`jobs[0]`, which is not the documented `IBMQManagedResultDataNotAvailable` error. -/
theorem combine_results_empty_jobset_index_error (mr : ManagedResults) (h : Heap)
    (hjobs : mr._job_set.jobs = []) (hsucc : mr.success = true)
    (hcache : mr._combined_results = none) :
    mr.combine_results h = (Except.error PyErr.IndexErrorRaised, mr, h, 0) ∧
    ∀ msg c, (PyErr.IndexErrorRaised : PyErr)
      ≠ PyErr.IBMQManagedResultDataNotAvailable msg c := by
  refine ⟨?_, ?_⟩
  · unfold ManagedResults.combine_results
    simp [hcache, hsucc, hjobs]
  · intro msg c hcontra
    cases hcontra

/-- The single-job combination contract: the combined payload's entry values equal
the job's entry values (a deep copy), every combined entry is a fresh object, and
mutating any entry of the combined copy leaves the job's stored values unchanged. -/
def SingleJobCopy (h : Heap) (r0 : Result)
    (p : Except PyErr Result × ManagedResults × Heap × Nat) : Prop :=
  ∃ combined, p.1 = Except.ok combined ∧
    entryVals p.2.2.1 combined = entryVals h r0 ∧
    (∀ a ∈ combined.results, h.cells.length ≤ a) ∧
    ∀ a ∈ combined.results, ∀ v, entryVals (Heap.set p.2.2.1 a v) r0 = entryVals h r0

/-- C5: for a job set containing exactly one job, `combine_results()` returns a result
whose entries equal a deep copy of that job's entries, with content unmodified;
mutating the combined copy does not alter the original job's stored result. -/
theorem combine_results_single_job_deepcopy (mr : ManagedResults) (h : Heap) (j0 : Job)
    (r0 : Result)
    (hcache : mr._combined_results = none) (hsucc : mr.success = true)
    (hjobs : mr._job_set.jobs = [j0])
    (h0 : j0.result = Except.ok r0)
    (hvalid : ∀ a ∈ r0.results, a < h.cells.length) :
    SingleJobCopy h r0 (mr.combine_results h) := by
  rw [combine_results_eq_ok mr h j0 [] r0 [] hcache hsucc hjobs h0 rfl]
  unfold SingleJobCopy
  dsimp only
  have hvalid1 : ∀ r ∈ [r0], ∀ a ∈ r.results, a < h.cells.length := by
    intro r hr a ha
    rw [List.mem_singleton.mp hr] at ha
    exact hvalid a ha
  refine ⟨_, rfl, ?_, ?_, ?_⟩
  · have hev := entryVals_combined h r0 [] hvalid1
    simpa using hev
  · intro a ha
    simp only [List.map_nil, List.flatten_nil, List.append_nil] at ha
    exact copyEntries_fresh r0.results h a ha
  · intro a ha v
    simp only [List.map_nil, List.flatten_nil, List.append_nil] at ha
    have hfresh := copyEntries_fresh r0.results h a ha
    unfold entryVals
    apply List.map_congr_left
    intro b hb
    have hblt := hvalid b hb
    have hne : a ≠ b := ne_of_gt (Nat.lt_of_lt_of_le hblt hfresh)
    have h3get := copyEntries_get_lt r0.results h b hblt
    rw [← h3get]
    simp only [Heap.set, Heap.get, List.getD_eq_getElem?_getD]
    rw [List.getElem?_set_ne hne]

/-- What the code actually guarantees for a multi-job combination: the combined entry
list itself is fresh, and the first job's entries are deep copies (fresh objects, so
mutating any fresh cell affects no original payload), but the entries appended from
the remaining jobs are the very addresses of those jobs' stored entries (aliases,
not copies). -/
def CombinedFirstCopiedRestAliased (h : Heap) (r0 : Result) (rrest : List Result)
    (p : Except PyErr Result × ManagedResults × Heap × Nat) : Prop :=
  ∃ combined, p.1 = Except.ok combined ∧
    combined.results.drop r0.results.length = (rrest.map Result.results).flatten ∧
    (∀ a ∈ combined.results.take r0.results.length, h.cells.length ≤ a) ∧
    ∀ a, h.cells.length ≤ a → ∀ v, ∀ r ∈ r0 :: rrest,
      entryVals (Heap.set p.2.2.1 a v) r = entryVals h r

/-- C4 (amended): for a successful multi-job combination, only the first job's entries
are deep-copied into fresh storage; the entries appended from every remaining job are
aliases of that job's stored entries, not copies (see the counterexample for the
mutation consequence); mutating the fresh first-segment cells affects no original
per-job result. -/
theorem combine_results_first_copied_rest_aliased (mr : ManagedResults) (h : Heap)
    (j0 : Job) (jrest : List Job) (r0 : Result) (rrest : List Result)
    (hcache : mr._combined_results = none) (hsucc : mr.success = true)
    (hjobs : mr._job_set.jobs = j0 :: jrest)
    (h0 : j0.result = Except.ok r0)
    (hrest : jrest.map Job.result = rrest.map Except.ok)
    (hvalid : ∀ r ∈ r0 :: rrest, ∀ a ∈ r.results, a < h.cells.length) :
    CombinedFirstCopiedRestAliased h r0 rrest (mr.combine_results h) := by
  rw [combine_results_eq_ok mr h j0 jrest r0 rrest hcache hsucc hjobs h0 hrest]
  unfold CombinedFirstCopiedRestAliased
  dsimp only
  have hlen : (copyEntries h r0.results).1.length = r0.results.length :=
    copyEntries_length_fst r0.results h
  refine ⟨_, rfl, ?_, ?_, ?_⟩
  · rw [← hlen, List.drop_left]
  · rw [← hlen, List.take_left]
    exact copyEntries_fresh r0.results h
  · intro a hfresh v r hr
    unfold entryVals
    apply List.map_congr_left
    intro b hb
    have hblt := hvalid r hr b hb
    have hne : a ≠ b := ne_of_gt (Nat.lt_of_lt_of_le hblt hfresh)
    have h3get := copyEntries_get_lt r0.results h b hblt
    rw [← h3get]
    simp only [Heap.set, Heap.get, List.getD_eq_getElem?_getD]
    rw [List.getElem?_set_ne hne]

/-! ### Concrete sample instances (used by counterexamples and witnesses) -/

def sampleHeap : Heap := ⟨[⟨10⟩, ⟨20⟩, ⟨30⟩]⟩

def sampleR0 : Result := ⟨[0, 1]⟩

def sampleR1 : Result := ⟨[2]⟩

def sampleJob0 : Job := ⟨Except.ok sampleR0⟩

def sampleJob1 : Job := ⟨Except.ok sampleR1⟩

def sampleErr : JobError := ⟨"job 0 failed"⟩

def sampleBadJob : Job := ⟨Except.error sampleErr⟩

def sampleSet2 : ManagedJobSet := ⟨[sampleJob0, sampleJob1], fun _ => (none, 0)⟩

def sampleMR2 : ManagedResults := ⟨sampleSet2, "ibmq_qasm_simulator", true, none⟩

/-- C4 (counterexample): on a fully successful two-job set the combined payload's
last entry is address 2 — the very object of job 1's stored entry, appended by
`extend` without copying — and mutating that entry through the combined structure
changes job 1's stored result values from `[30]` to `[99]`.  So the combined
structure does share mutable backing storage with job 1's stored result. -/
theorem combine_results_aliasing_counterexample :
    (sampleMR2.combine_results sampleHeap).1 = Except.ok ⟨[3, 4, 2]⟩ ∧
    sampleR1.results = [2] ∧
    entryVals sampleHeap sampleR1 = [⟨30⟩] ∧
    entryVals (Heap.set (sampleMR2.combine_results sampleHeap).2.2.1 2 ⟨99⟩) sampleR1
      = [⟨99⟩] := by
  decide

/-- C6: for every experiment reference that the job set's lookup does not resolve to
any job, every query method (`data`, `get_memory`, `get_counts`, `get_statevector`,
`get_unitary`) fails with the SubmissionNotFound error
(`IBMQManagedResultDataNotAvailable`, stating the job was not successfully
submitted). -/
theorem query_methods_submission_not_found {α β γ δ ε : Type}
    (mr : ManagedResults) (exp : ExperimentRef) (i : Nat)
    (hlookup : mr._job_set.job exp = (none, i))
    (accD : Result → Nat → α) (accM : Result → Nat → β) (accC : Result → Nat → γ)
    (accS : Result → Nat → Option Int → δ) (accU : Result → Nat → Option Int → ε)
    (d1 d2 : Option Int) :
    mr.data accD exp = Except.error (submissionNotFoundErr exp) ∧
    mr.get_memory accM exp = Except.error (submissionNotFoundErr exp) ∧
    mr.get_counts accC exp = Except.error (submissionNotFoundErr exp) ∧
    mr.get_statevector accS exp d1 = Except.error (submissionNotFoundErr exp) ∧
    mr.get_unitary accU exp d2 = Except.error (submissionNotFoundErr exp) := by
  have hres : mr._get_result exp = Except.error (submissionNotFoundErr exp) := by
    unfold ManagedResults._get_result
    rw [hlookup]
  refine ⟨?_, ?_, ?_, ?_, ?_⟩ <;>
    simp [ManagedResults.data, ManagedResults.get_memory, ManagedResults.get_counts,
      ManagedResults.get_statevector, ManagedResults.get_unitary, hres]

/-- C7: for every experiment reference that resolves to a job whose result fetch
fails with a job-layer error, every query method fails with the ResultUnavailable
error (`IBMQManagedResultDataNotAvailable`, stating result data is not available),
and the original job-layer error is preserved as the underlying cause via `from err`
chaining, not swallowed. -/
theorem query_methods_result_unavailable {α β γ δ ε : Type}
    (mr : ManagedResults) (exp : ExperimentRef) (j : Job) (i : Nat) (err : JobError)
    (hlookup : mr._job_set.job exp = (some j, i))
    (hfail : j.result = Except.error err)
    (accD : Result → Nat → α) (accM : Result → Nat → β) (accC : Result → Nat → γ)
    (accS : Result → Nat → Option Int → δ) (accU : Result → Nat → Option Int → ε)
    (d1 d2 : Option Int) :
    mr.data accD exp = Except.error (resultUnavailableErr exp err) ∧
    mr.get_memory accM exp = Except.error (resultUnavailableErr exp err) ∧
    mr.get_counts accC exp = Except.error (resultUnavailableErr exp err) ∧
    mr.get_statevector accS exp d1 = Except.error (resultUnavailableErr exp err) ∧
    mr.get_unitary accU exp d2 = Except.error (resultUnavailableErr exp err) ∧
    (resultUnavailableErr exp err).cause = some err := by
  have hres : mr._get_result exp = Except.error (resultUnavailableErr exp err) := by
    unfold ManagedResults._get_result
    rw [hlookup]
    simp [hfail]
  refine ⟨?_, ?_, ?_, ?_, ?_, rfl⟩ <;>
    simp [ManagedResults.data, ManagedResults.get_memory, ManagedResults.get_counts,
      ManagedResults.get_statevector, ManagedResults.get_unitary, hres]

/-- C9: for every experiment reference that resolves successfully, each query method
returns exactly the value of the identically-named accessor of the resolved job's
result payload invoked with the resolved intra-job offset (and, for
`get_statevector` and `get_unitary`, the caller-supplied `decimals` parameter), with
no transformation of the returned value. -/
theorem query_methods_delegate {α β γ δ ε : Type}
    (mr : ManagedResults) (exp : ExperimentRef) (r : Result) (i : Nat)
    (hres : mr._get_result exp = Except.ok (r, i))
    (accD : Result → Nat → α) (accM : Result → Nat → β) (accC : Result → Nat → γ)
    (accS : Result → Nat → Option Int → δ) (accU : Result → Nat → Option Int → ε)
    (d1 d2 : Option Int) :
    mr.data accD exp = Except.ok (accD r i) ∧
    mr.get_memory accM exp = Except.ok (accM r i) ∧
    mr.get_counts accC exp = Except.ok (accC r i) ∧
    mr.get_statevector accS exp d1 = Except.ok (accS r i d1) ∧
    mr.get_unitary accU exp d2 = Except.ok (accU r i d2) := by
  refine ⟨?_, ?_, ?_, ?_, ?_⟩ <;>
    simp [ManagedResults.data, ManagedResults.get_memory, ManagedResults.get_counts,
      ManagedResults.get_statevector, ManagedResults.get_unitary, hres]

/-! ### Distinctness of the three failure signals -/

lemma submissionNotFoundMsg_head (e : ExperimentRef) :
    (submissionNotFoundMsg e).data.head? = some 'J' := by
  have hdat : ("Job for experiment " : String).data
      = 'J' :: ("ob for experiment " : String).data := rfl
  unfold submissionNotFoundMsg
  rw [String.data_append, String.data_append, hdat]
  simp [List.cons_append]

lemma submissionNotFound_ne_combinationRefused (e : ExperimentRef) :
    submissionNotFoundErr e ≠ combinationRefusedErr := by
  intro hcontra
  simp only [submissionNotFoundErr, combinationRefusedErr,
    PyErr.IBMQManagedResultDataNotAvailable.injEq, and_true] at hcontra
  have h1 : (submissionNotFoundMsg e).data.head? = combineRefusedMsg.data.head? := by
    rw [hcontra]
  rw [submissionNotFoundMsg_head e] at h1
  have h2 : combineRefusedMsg.data.head? = some 'R' := rfl
  rw [h2] at h1
  simp at h1

/-- Inversion of a successful `combine_results` call: a combined payload is returned
only from the cache, or after the success flag was found true and every job in the
set produced a result (no partial combination is ever produced). -/
lemma combine_results_ok_inv (mr : ManagedResults) (h : Heap) (r : Result)
    (hok : (mr.combine_results h).1 = Except.ok r) :
    mr._combined_results = some r ∨
    (mr.success = true ∧ ∀ j ∈ mr._job_set.jobs, ∃ rj, j.result = Except.ok rj) := by
  unfold ManagedResults.combine_results at hok
  cases hc : mr._combined_results with
  | some c =>
    left
    rw [hc] at hok
    simp only [Except.ok.injEq] at hok
    rw [hok]
  | none =>
    right
    rw [hc] at hok
    simp only at hok
    cases hb : mr.success with
    | false => rw [hb] at hok; simp at hok
    | true =>
      refine ⟨rfl, ?_⟩
      rw [hb] at hok
      simp only [Bool.true_eq_false, if_false] at hok
      cases hjb : mr._job_set.jobs with
      | nil => rw [hjb] at hok; simp at hok
      | cons j0 rest =>
        rw [hjb] at hok
        simp only at hok
        intro j hj
        cases h0 : j0.result with
        | error e => rw [h0] at hok; simp at hok
        | ok r0 =>
          rw [h0] at hok
          simp only at hok
          rcases hel : extendLoop rest (deepcopyResult h r0).1 1 with ⟨res, n⟩
          rw [hel] at hok
          cases res with
          | error e => simp at hok
          | ok c =>
            rcases List.mem_cons.mp hj with hhead | hmem
            · exact ⟨r0, hhead ▸ h0⟩
            · exact extendLoop_all_ok rest (deepcopyResult h r0).1 c 1 n hel j hmem

/-- C8: the three failure conditions SubmissionNotFound, ResultUnavailable and
CombinationRefused are surfaced to the caller as distinct, explicit failure signals;
a resolution either succeeds or fails with one of the two documented resolution
errors, a refused combination fails with the third, and no operation silently
returns partial data: a combined payload comes only from the cache or from a state
in which every job produced a result. -/
theorem error_taxonomy_distinct_and_explicit :
    (∀ e : ExperimentRef, ∀ err : JobError,
        submissionNotFoundErr e ≠ combinationRefusedErr ∧
        resultUnavailableErr e err ≠ combinationRefusedErr ∧
        ∀ e2 : ExperimentRef, submissionNotFoundErr e ≠ resultUnavailableErr e2 err) ∧
    (∀ (mr : ManagedResults) (exp : ExperimentRef),
        (∃ j i r, mr._job_set.job exp = (some j, i) ∧ j.result = Except.ok r ∧
          mr._get_result exp = Except.ok (r, i)) ∨
        (∃ i, mr._job_set.job exp = (none, i) ∧
          mr._get_result exp = Except.error (submissionNotFoundErr exp)) ∨
        (∃ j i err, mr._job_set.job exp = (some j, i) ∧ j.result = Except.error err ∧
          mr._get_result exp = Except.error (resultUnavailableErr exp err))) ∧
    (∀ (mr : ManagedResults) (h : Heap),
        mr._combined_results = none → mr.success = false →
        (mr.combine_results h).1 = Except.error combinationRefusedErr) ∧
    (∀ (mr : ManagedResults) (h : Heap) (r : Result),
        (mr.combine_results h).1 = Except.ok r →
        mr._combined_results = some r ∨
        (mr.success = true ∧ ∀ j ∈ mr._job_set.jobs, ∃ rj, j.result = Except.ok rj)) := by
  refine ⟨?_, ?_, ?_, ?_⟩
  · intro e err
    refine ⟨submissionNotFound_ne_combinationRefused e, ?_, ?_⟩
    · simp [resultUnavailableErr, combinationRefusedErr]
    · intro e2
      simp [submissionNotFoundErr, resultUnavailableErr]
  · intro mr exp
    rcases hjob : mr._job_set.job exp with ⟨jopt, i⟩
    cases jopt with
    | none =>
      right; left
      refine ⟨i, rfl, ?_⟩
      unfold ManagedResults._get_result
      rw [hjob]
    | some j =>
      cases hr : j.result with
      | ok r =>
        left
        refine ⟨j, i, r, rfl, hr, ?_⟩
        unfold ManagedResults._get_result
        rw [hjob]
        simp [hr]
      | error err =>
        right; right
        refine ⟨j, i, err, rfl, hr, ?_⟩
        unfold ManagedResults._get_result
        rw [hjob]
        simp [hr]
  · intro mr h hcache hsucc
    unfold ManagedResults.combine_results
    simp [hcache, hsucc, combinationRefusedErr]
  · exact combine_results_ok_inv

/-! ### Further concrete views for the witnesses -/

def sampleMRFalse : ManagedResults := ⟨sampleSet2, "ibmq_qasm_simulator", false, none⟩

def sampleMRCached : ManagedResults :=
  ⟨sampleSet2, "ibmq_qasm_simulator", true, some sampleR0⟩

def sampleMREmpty : ManagedResults :=
  ⟨⟨[], fun _ => (none, 0)⟩, "ibmq_qasm_simulator", true, none⟩

def sampleMRSingle : ManagedResults :=
  ⟨⟨[sampleJob0], fun _ => (none, 0)⟩, "ibmq_qasm_simulator", true, none⟩

def sampleMRNotFound : ManagedResults :=
  ⟨⟨[sampleJob0], fun _ => (none, 0)⟩, "ibmq_qasm_simulator", true, none⟩

def sampleMRBad : ManagedResults :=
  ⟨⟨[sampleBadJob], fun _ => (some sampleBadJob, 0)⟩, "ibmq_qasm_simulator", false, none⟩

def sampleMRResolve : ManagedResults :=
  ⟨⟨[sampleJob0], fun _ => (some sampleJob0, 1)⟩, "ibmq_qasm_simulator", true, none⟩

def sampleExp : ExperimentRef := ExperimentRef.byName "z"

/-! ### Witnesses -/

/-- Witness for C1 at a concrete fully successful two-job set. -/
theorem combine_results_concatenates_witness :
    sampleMR2._combined_results = none ∧ sampleMR2.success = true ∧
    sampleMR2._job_set.jobs = sampleJob0 :: [sampleJob1] ∧
    CombinedConcat sampleHeap (sampleR0 :: [sampleR1])
      (sampleMR2.combine_results sampleHeap) :=
  ⟨rfl, rfl, rfl,
   combine_results_concatenates sampleMR2 sampleHeap sampleJob0 [sampleJob1]
     sampleR0 [sampleR1] rfl rfl rfl rfl rfl (by decide)⟩

/-- Witness for C2 at a concrete failed view. -/
theorem combine_results_refused_on_failure_witness :
    sampleMRFalse.success = false ∧ sampleMRFalse._combined_results = none ∧
    (sampleMRFalse.combine_results sampleHeap
        = (Except.error combinationRefusedErr, sampleMRFalse, sampleHeap, 0) ∧
      ((sampleMRFalse.combine_results sampleHeap).2.1)._combined_results = none) :=
  ⟨rfl, rfl, combine_results_refused_on_failure sampleMRFalse sampleHeap rfl rfl⟩

/-- Witness for C3 at a concrete view with a cached combination. -/
theorem combine_results_cached_witness :
    sampleMRCached._combined_results = some sampleR0 ∧
    sampleMRCached.combine_results sampleHeap
      = (Except.ok sampleR0, sampleMRCached, sampleHeap, 0) :=
  ⟨rfl, combine_results_cached sampleMRCached sampleHeap sampleR0 rfl⟩

/-- Witness for the amended C4 at a concrete two-job set. -/
theorem combine_results_first_copied_rest_aliased_witness :
    sampleMR2._combined_results = none ∧ sampleMR2.success = true ∧
    CombinedFirstCopiedRestAliased sampleHeap sampleR0 [sampleR1]
      (sampleMR2.combine_results sampleHeap) :=
  ⟨rfl, rfl,
   combine_results_first_copied_rest_aliased sampleMR2 sampleHeap sampleJob0
     [sampleJob1] sampleR0 [sampleR1] rfl rfl rfl rfl rfl (by decide)⟩

/-- Witness for C5 at a concrete one-job set. -/
theorem combine_results_single_job_deepcopy_witness :
    sampleMRSingle._combined_results = none ∧ sampleMRSingle.success = true ∧
    SingleJobCopy sampleHeap sampleR0 (sampleMRSingle.combine_results sampleHeap) :=
  ⟨rfl, rfl,
   combine_results_single_job_deepcopy sampleMRSingle sampleHeap sampleJob0
     sampleR0 rfl rfl rfl rfl (by decide)⟩

/-- Witness for C6 at a concrete unresolvable experiment reference. -/
theorem query_methods_submission_not_found_witness :
    sampleMRNotFound._job_set.job sampleExp = (none, 0) ∧
    (sampleMRNotFound.data (fun _ i => i) sampleExp
        = Except.error (submissionNotFoundErr sampleExp) ∧
      sampleMRNotFound.get_memory (fun _ i => i) sampleExp
        = Except.error (submissionNotFoundErr sampleExp) ∧
      sampleMRNotFound.get_counts (fun _ i => i) sampleExp
        = Except.error (submissionNotFoundErr sampleExp) ∧
      sampleMRNotFound.get_statevector (fun _ i _ => i) sampleExp none
        = Except.error (submissionNotFoundErr sampleExp) ∧
      sampleMRNotFound.get_unitary (fun _ i _ => i) sampleExp (some 3)
        = Except.error (submissionNotFoundErr sampleExp)) :=
  ⟨rfl,
   query_methods_submission_not_found sampleMRNotFound sampleExp 0 rfl
     (fun _ i => i) (fun _ i => i) (fun _ i => i) (fun _ i _ => i) (fun _ i _ => i)
     none (some 3)⟩

/-- Witness for C7 at a concrete failing job. -/
theorem query_methods_result_unavailable_witness :
    sampleMRBad._job_set.job sampleExp = (some sampleBadJob, 0) ∧
    sampleBadJob.result = Except.error sampleErr ∧
    (sampleMRBad.data (fun _ i => i) sampleExp
        = Except.error (resultUnavailableErr sampleExp sampleErr) ∧
      sampleMRBad.get_memory (fun _ i => i) sampleExp
        = Except.error (resultUnavailableErr sampleExp sampleErr) ∧
      sampleMRBad.get_counts (fun _ i => i) sampleExp
        = Except.error (resultUnavailableErr sampleExp sampleErr) ∧
      sampleMRBad.get_statevector (fun _ i _ => i) sampleExp none
        = Except.error (resultUnavailableErr sampleExp sampleErr) ∧
      sampleMRBad.get_unitary (fun _ i _ => i) sampleExp (some 3)
        = Except.error (resultUnavailableErr sampleExp sampleErr) ∧
      (resultUnavailableErr sampleExp sampleErr).cause = some sampleErr) :=
  ⟨rfl, rfl,
   query_methods_result_unavailable sampleMRBad sampleExp sampleBadJob 0 sampleErr
     rfl rfl (fun _ i => i) (fun _ i => i) (fun _ i => i) (fun _ i _ => i)
     (fun _ i _ => i) none (some 3)⟩

/-- Witness for C8: the theorem applied at a concrete refused view and a concrete
cache hit. -/
theorem error_taxonomy_witness :
    (sampleMRFalse.combine_results sampleHeap).1
      = Except.error combinationRefusedErr ∧
    (sampleMRCached._combined_results = some sampleR0 ∨
      (sampleMRCached.success = true ∧
        ∀ j ∈ sampleMRCached._job_set.jobs, ∃ rj, j.result = Except.ok rj)) :=
  ⟨error_taxonomy_distinct_and_explicit.2.2.1 sampleMRFalse sampleHeap rfl rfl,
   error_taxonomy_distinct_and_explicit.2.2.2 sampleMRCached sampleHeap sampleR0 rfl⟩

/-- Witness for C9 at a concrete resolvable experiment reference. -/
theorem query_methods_delegate_witness :
    sampleMRResolve._get_result sampleExp = Except.ok (sampleR0, 1) ∧
    (sampleMRResolve.data (fun r i => r.results.getD i 0) sampleExp
        = Except.ok (sampleR0.results.getD 1 0) ∧
      sampleMRResolve.get_memory (fun _ i => i) sampleExp = Except.ok 1 ∧
      sampleMRResolve.get_counts (fun _ i => i) sampleExp = Except.ok 1 ∧
      sampleMRResolve.get_statevector (fun _ i d => (i, d)) sampleExp none
        = Except.ok (1, none) ∧
      sampleMRResolve.get_unitary (fun _ i d => (i, d)) sampleExp (some 3)
        = Except.ok (1, some 3)) :=
  ⟨rfl,
   query_methods_delegate sampleMRResolve sampleExp sampleR0 1 rfl
     (fun r i => r.results.getD i 0) (fun _ i => i) (fun _ i => i)
     (fun _ i d => (i, d)) (fun _ i d => (i, d)) none (some 3)⟩

/-- Witness for C10 at a concrete empty job set. -/
theorem combine_results_empty_jobset_index_error_witness :
    sampleMREmpty._job_set.jobs = [] ∧ sampleMREmpty.success = true ∧
    sampleMREmpty._combined_results = none ∧
    (sampleMREmpty.combine_results sampleHeap
        = (Except.error PyErr.IndexErrorRaised, sampleMREmpty, sampleHeap, 0) ∧
      ∀ msg c, (PyErr.IndexErrorRaised : PyErr)
        ≠ PyErr.IBMQManagedResultDataNotAvailable msg c) :=
  ⟨rfl, rfl, rfl,
   combine_results_empty_jobset_index_error sampleMREmpty sampleHeap rfl rfl rfl⟩
